import Mathlib

/-!
Shallow embedding of the task scheduler in `src/server/scheduler.js`
(class `Scheduler`), together with proofs of its specified properties.

Modelling conventions:
* JavaScript numbers used for timestamps and durations are modelled by `Int`
  (all times are integer milliseconds); where the code distinguishes
  non-finite numbers (`Number.isFinite`) the patch values are modelled by
  `JSNum`, which has explicit `nan` / `inf` / `neginf` constructors.
* `Date.now()` is modelled by an external clock `clock : Nat → Int` together
  with a sample counter `tick` in the state: each call of `_now()` reads
  `clock tick` and increments `tick`.
* `Math.random`-based id generation is determinised by a counter `ridCtr`
  rendered through `randHex`.
* The injected async `execute(task, execReqId)` adapter is modelled by a
  function `Task → String → ExecOutcome`; a rejection carries the resolved
  error message string (the code's `error?.message || String(error)`).
* JS objects handed to the injected `broadcast` / `addAudit` sinks are
  modelled as association lists of field names, so that the presence and
  names of their fields are part of the model.
* File persistence (`_save` / `_load`) is effect-free for the properties at
  stake and is not modelled; `_save()` calls are omitted.
* In-place mutation of a task object is modelled by replacing, in the task
  list, every task carrying the mutated task's id.
-/

namespace Vac

/-- Task status, `status` field of a schedule. -/
inductive Status
  | pending
  | executed
  | failed
  | canceled
deriving DecidableEq, Repr

/-- A JavaScript number: either a finite value or one of the non-finite ones. -/
inductive JSNum
  | fin (v : Int)
  | nan
  | inf
  | neginf
deriving DecidableEq, Repr

/-- `Number.isFinite`. -/
def JSNum.isFinite : JSNum → Bool
  | .fin _ => true
  | _ => false

/-- The `result` field: `{ ok: true }` or `{ ok: false, message }`. -/
structure ExecResult where
  ok : Bool
  message : Option String
deriving DecidableEq, Repr

/-- A schedule record, as built by `Scheduler.create` and mutated by the
engine.  `Option` models JS `null`/`undefined` for the nullable fields. -/
structure Task where
  id : String
  action : String
  payload : Option String
  scheduledAt : Int
  status : Status
  createdAt : Int
  updatedAt : Int
  executedAt : Option Int
  requestId : Option String
  executionRequestId : Option String
  result : Option ExecResult
  intervalMs : Option Int
  lastRunAt : Option Int
deriving DecidableEq, Repr

/-- `Scheduler._public`: the copy of the schedule exposed on events. -/
def publicOf (t : Task) : Task :=
  { id := t.id
    action := t.action
    payload := t.payload
    scheduledAt := t.scheduledAt
    status := t.status
    createdAt := t.createdAt
    updatedAt := t.updatedAt
    executedAt := t.executedAt
    requestId := t.requestId
    executionRequestId := t.executionRequestId
    result := t.result
    intervalMs := t.intervalMs
    lastRunAt := t.lastRunAt }

/-- A value in a broadcast message object. -/
inductive BVal
  | str (s : String)
  | pub (t : Task)
deriving DecidableEq, Repr

/-- A broadcast message, as the association list of its fields. -/
abbrev Msg := List (String × BVal)

/-- The object passed to `broadcast` by the scheduler:
`{ type: 'schedule', event, schedule: this._public(s) }`. -/
def wsMsg (ev : String) (t : Task) : Msg :=
  [("type", BVal.str "schedule"), ("event", BVal.str ev),
   ("schedule", BVal.pub (publicOf t))]

/-- An audit entry, as the association list of its (string-valued) fields. -/
abbrev AuditEntry := List (String × String)

/-- The audit entry recorded on a successful firing:
`{ requestId: execReqId, command, status: 'ok', scheduleId }`. -/
def auditOk (rid : String) (t : Task) : AuditEntry :=
  [("requestId", rid), ("command", "schedule:" ++ t.action),
   ("status", "ok"), ("scheduleId", t.id)]

/-- The audit entry recorded on a failed firing:
`{ requestId: execReqId, command, status: 'error', message, scheduleId }`. -/
def auditErr (rid : String) (msg : String) (t : Task) : AuditEntry :=
  [("requestId", rid), ("command", "schedule:" ++ t.action),
   ("status", "error"), ("message", msg), ("scheduleId", t.id)]

/-- The scheduler's mutable state: the in-memory list, the armed timer delay
(`none` = no timer), the disposed flag, plus the clock-sample and
random-draw counters of the determinisation. -/
structure SchedulerState where
  schedules : List Task
  timer : Option Int
  disposed : Bool
  tick : Nat
  ridCtr : Nat
deriving DecidableEq, Repr

/-- Everything the scheduler hands to its injected sinks during one
operation: `broadcast` messages, `addAudit` entries, and the calls made to
the injected `execute` adapter (task passed, execution request id). -/
structure Trace where
  msgs : List Msg
  audits : List AuditEntry
  execCalls : List (Task × String)
deriving DecidableEq, Repr

def Trace.empty : Trace := ⟨[], [], []⟩

def Trace.append (a b : Trace) : Trace :=
  ⟨a.msgs ++ b.msgs, a.audits ++ b.audits, a.execCalls ++ b.execCalls⟩

/-- `this._now()`: sample the clock and advance the sample counter. -/
def SchedulerState.sampleNow (st : SchedulerState) (clock : Nat → Int) :
    Int × SchedulerState :=
  (clock st.tick, { st with tick := st.tick + 1 })

/-- Determinised rendering of a `Math.random`-derived identifier. -/
def randHex (n : Nat) : String := "r" ++ Nat.repr n

/-- Draw a fresh random identifier (`this._genId()` / the `execReqId`). -/
def SchedulerState.freshRand (st : SchedulerState) : String × SchedulerState :=
  (randHex st.ridCtr, { st with ridCtr := st.ridCtr + 1 })

/-- `this.schedules.find(s => s.id === id)`. -/
def findTask (id : String) : List Task → Option Task
  | [] => none
  | x :: l => if x.id = id then some x else findTask id l

/-- In-place mutation of the task with the given id, modelled as replacement
of every list entry carrying that id. -/
def replaceTask (id : String) (t' : Task) (l : List Task) : List Task :=
  l.map (fun x => if x.id = id then t' else x)

/-- The comparator `(a, b) => a.scheduledAt - b.scheduledAt`. -/
def timeLE (a b : Task) : Prop := a.scheduledAt ≤ b.scheduledAt

instance : DecidableRel timeLE := fun a b =>
  inferInstanceAs (Decidable (a.scheduledAt ≤ b.scheduledAt))

instance : IsTotal Task timeLE := ⟨fun a b => Int.le_total a.scheduledAt b.scheduledAt⟩

instance : IsTrans Task timeLE := ⟨fun _ _ _ h h' => le_trans h h'⟩

/-- `.sort((a, b) => a.scheduledAt - b.scheduledAt)`: a stable sort by
`scheduledAt`, modelled by insertion sort. -/
def sortByTime (l : List Task) : List Task := List.insertionSort timeLE l

/-- The delay `_scheduleNext` arms for a given task list:
`min(max(0, earliest.scheduledAt - now), 0x7fffffff)` over the earliest
pending task, `none` when no task is pending. -/
def nextDelay (now : Int) (l : List Task) : Option Int :=
  match (sortByTime (l.filter (fun s => decide (s.status = Status.pending)))).head? with
  | none => none
  | some nxt => some (min (max 0 (nxt.scheduledAt - now)) 2147483647)

/-- `Scheduler._scheduleNext`: clear any armed timer, then arm a capped
wake-up for the earliest pending task (no-op when disposed). -/
def scheduleNext (clock : Nat → Int) (st : SchedulerState) : SchedulerState :=
  if st.disposed then st
  else
    let now_st := SchedulerState.sampleNow { st with timer := none } clock
    { now_st.2 with timer := nextDelay now_st.1 now_st.2.schedules }

/-- `payload || null` / `requestId || null` on an optional string. -/
def orNullStr : Option String → Option String
  | none => none
  | some s => if s = "" then none else some s

/-- The argument object of `Scheduler.create` (only these four properties
are destructured; anything else a caller supplies is ignored). -/
structure CreateInput where
  scheduledAt : Int
  action : String
  payload : Option String
  requestId : Option String
deriving DecidableEq, Repr

/-- `Scheduler.create`. -/
def create (clock : Nat → Int) (inp : CreateInput) (st : SchedulerState) :
    SchedulerState × Trace × Task :=
  let now_st := st.sampleNow clock
  let gid_st := now_st.2.freshRand
  let sch : Task :=
    { id := gid_st.1
      action := inp.action
      payload := orNullStr inp.payload
      scheduledAt := inp.scheduledAt
      status := Status.pending
      createdAt := now_st.1
      updatedAt := now_st.1
      executedAt := none
      requestId := orNullStr inp.requestId
      executionRequestId := none
      result := none
      intervalMs := none
      lastRunAt := none }
  let st1 := { gid_st.2 with schedules := gid_st.2.schedules ++ [sch] }
  (scheduleNext clock st1, ⟨[wsMsg "created" sch], [], []⟩, sch)

/-- `Scheduler.cancel`. -/
def cancel (clock : Nat → Int) (id : String) (st : SchedulerState) :
    SchedulerState × Trace × Option Task :=
  match findTask id st.schedules with
  | none => (st, Trace.empty, none)
  | some s =>
    if s.status ≠ Status.pending then (st, Trace.empty, some s)
    else
      let now_st := st.sampleNow clock
      let s' := { s with status := Status.canceled, updatedAt := now_st.1 }
      let st1 := { now_st.2 with schedules := replaceTask id s' now_st.2.schedules }
      (scheduleNext clock st1, ⟨[wsMsg "canceled" s'], [], []⟩, some s')

/-- The patch object of `Scheduler.update`: `none` stands for an absent
(`undefined`) property.  `payload`'s inner option is its possibly-null
value; `intervalMs` carries the result of the `Number(...)` coercion. -/
structure UpdatePatch where
  scheduledAt : Option JSNum := none
  action : Option String := none
  payload : Option (Option String) := none
  intervalMs : Option JSNum := none
deriving DecidableEq, Repr

/-- `Number.isFinite(iv) && iv > 0 ? iv : null`. -/
def jsIntervalVal : JSNum → Option Int
  | .fin v => if 0 < v then some v else none
  | _ => none

/-- The `scheduledAt` block of `Scheduler.update`: applied only when the
patch value is a finite number. -/
def patchScheduledAt (v : Option JSNum) (p : Task × Bool) : Task × Bool :=
  match v with
  | some (JSNum.fin x) => ({ p.1 with scheduledAt := x }, true)
  | _ => p

/-- The `action` block of `Scheduler.update`: applied only when the patch
value is a non-empty string. -/
def patchAction (v : Option String) (p : Task × Bool) : Task × Bool :=
  match v with
  | some a => if a = "" then p else ({ p.1 with action := a }, true)
  | none => p

/-- The `payload` block of `Scheduler.update`: applied whenever present. -/
def patchPayload (v : Option (Option String)) (p : Task × Bool) : Task × Bool :=
  match v with
  | some q => ({ p.1 with payload := orNullStr q }, true)
  | none => p

/-- The `intervalMs` block of `Scheduler.update`: whenever present, stores
`Number.isFinite(iv) && iv > 0 ? iv : null`. -/
def patchInterval (v : Option JSNum) (p : Task × Bool) : Task × Bool :=
  match v with
  | some n => ({ p.1 with intervalMs := jsIntervalVal n }, true)
  | none => p

/-- The field-by-field patching sequence of `Scheduler.update`, returning
the patched task and the `touched` flag. -/
def applyPatch (ch : UpdatePatch) (s : Task) : Task × Bool :=
  patchInterval ch.intervalMs
    (patchPayload ch.payload
      (patchAction ch.action
        (patchScheduledAt ch.scheduledAt (s, false))))

/-- `Scheduler.update`. -/
def update (clock : Nat → Int) (id : String) (ch : UpdatePatch)
    (st : SchedulerState) : SchedulerState × Trace × Option Task :=
  match findTask id st.schedules with
  | none => (st, Trace.empty, none)
  | some s =>
    if s.status ≠ Status.pending then (st, Trace.empty, some s)
    else
      let p := applyPatch ch s
      if p.2 then
        let now_st := st.sampleNow clock
        let s' := { p.1 with updatedAt := now_st.1 }
        let st1 := { now_st.2 with schedules := replaceTask id s' now_st.2.schedules }
        (scheduleNext clock st1, ⟨[wsMsg "updated" s'], [], []⟩, some s')
      else (st, Trace.empty, some s)

/-- Outcome of one call of the injected `execute` adapter: the promise
resolves, or rejects with the given resolved message. -/
inductive ExecOutcome
  | ok
  | err (message : String)
deriving DecidableEq, Repr

/-- `s.intervalMs && Number.isFinite(s.intervalMs) && s.intervalMs > 0`. -/
def isRecurring (s : Task) : Bool :=
  match s.intervalMs with
  | some iv => decide (0 < iv)
  | none => false

/-- The task update performed on a resolved `execute` (the `try` branch of
`_executeOne`). -/
def fireSuccess (now : Int) (rid : String) (s : Task) : Task :=
  let base := { s with
    lastRunAt := some now
    executedAt := some now
    executionRequestId := some rid
    updatedAt := now
    result := some ⟨true, none⟩ }
  if isRecurring s then
    { base with scheduledAt := now + s.intervalMs.getD 0, status := Status.pending }
  else
    { base with status := Status.executed }

/-- The task update performed on a rejected `execute` (the `catch` branch of
`_executeOne`). -/
def fireFailure (now : Int) (rid : String) (msg : String) (s : Task) : Task :=
  let base := { s with
    executedAt := some now
    executionRequestId := some rid
    updatedAt := now
    result := some ⟨false, some msg⟩ }
  if isRecurring s then
    { base with
      lastRunAt := some now
      scheduledAt := now + s.intervalMs.getD 0
      status := Status.pending }
  else
    { base with status := Status.failed }

/-- The post-firing task for a given adapter outcome. -/
def fireTask (out : ExecOutcome) (now : Int) (rid : String) (s : Task) : Task :=
  match out with
  | .ok => fireSuccess now rid s
  | .err m => fireFailure now rid m s

/-- The trace of one firing: `executing` event, adapter call, then the
outcome's event and audit entry. -/
def fireTrace (out : ExecOutcome) (rid : String) (s s' : Task) : Trace :=
  match out with
  | .ok => ⟨[wsMsg "executing" s, wsMsg "executed" s'], [auditOk rid s], [(s, rid)]⟩
  | .err m => ⟨[wsMsg "executing" s, wsMsg "failed" s'], [auditErr rid m s], [(s, rid)]⟩

/-- `Scheduler._executeOne` on the task with the given id. -/
def executeOne (execute : Task → String → ExecOutcome) (clock : Nat → Int)
    (id : String) (st : SchedulerState) : SchedulerState × Trace :=
  if st.disposed then (st, Trace.empty)
  else
    match findTask id st.schedules with
    | none => (st, Trace.empty)
    | some s =>
      if s.status ≠ Status.pending then (st, Trace.empty)
      else
        let rid_st := st.freshRand
        let out := execute s rid_st.1
        let now_st := rid_st.2.sampleNow clock
        let s' := fireTask out now_st.1 rid_st.1 s
        ({ now_st.2 with schedules := replaceTask id s' now_st.2.schedules },
         fireTrace out rid_st.1 s s')

/-- The `for (const s of due)` loop of `_onTimer`, with the disposed check
before each task. -/
def runDue (execute : Task → String → ExecOutcome) (clock : Nat → Int) :
    List String → SchedulerState → SchedulerState × Trace
  | [], st => (st, Trace.empty)
  | id :: rest, st =>
    if st.disposed then (st, Trace.empty)
    else
      let r1 := executeOne execute clock id st
      let r2 := runDue execute clock rest r1.1
      (r2.1, r1.2.append r2.2)

/-- The due tasks gathered by `_onTimer`: every pending task whose
`scheduledAt <= now`, sorted ascending by `scheduledAt`. -/
def dueList (now : Int) (l : List Task) : List Task :=
  sortByTime (l.filter
    (fun s => decide (s.status = Status.pending) && decide (s.scheduledAt ≤ now)))

/-- `Scheduler._onTimer`: catch-up execution of all due tasks, then re-arm. -/
def onTimer (execute : Task → String → ExecOutcome) (clock : Nat → Int)
    (st : SchedulerState) : SchedulerState × Trace :=
  if st.disposed then (st, Trace.empty)
  else
    let now_st := st.sampleNow clock
    let due := dueList now_st.1 now_st.2.schedules
    let r := runDue execute clock (due.map Task.id) now_st.2
    (scheduleNext clock r.1, r.2)

/-- `Scheduler.dispose`. -/
def dispose (st : SchedulerState) : SchedulerState :=
  { st with disposed := true, timer := none }

/-! Concrete fixtures used to instantiate the theorems. -/

/-- A concrete clock. -/
def exClock : Nat → Int := fun n => 100 + n

/-- An adapter whose promise always resolves. -/
def exExecOk : Task → String → ExecOutcome := fun _ _ => ExecOutcome.ok

/-- An adapter whose promise always rejects. -/
def exExecErr : Task → String → ExecOutcome := fun _ _ => ExecOutcome.err "boom"

/-- A pending recurring task. -/
def exRecTask : Task where
  id := "a"
  action := "start"
  payload := none
  scheduledAt := 10
  status := Status.pending
  createdAt := 0
  updatedAt := 0
  executedAt := none
  requestId := some "req1"
  executionRequestId := none
  result := none
  intervalMs := some 60000
  lastRunAt := none

/-- A pending one-shot task. -/
def exOneShot : Task :=
  { exRecTask with id := "b", intervalMs := none, scheduledAt := 20 }

/-- An already-executed task. -/
def exDoneTask : Task :=
  { exRecTask with id := "c", status := Status.executed }

/-- Two pending one-shot tasks sharing the same `scheduledAt`. -/
def exTieTask1 : Task :=
  { exRecTask with id := "d", intervalMs := none, scheduledAt := 10 }

def exTieTask2 : Task :=
  { exRecTask with id := "e", intervalMs := none, scheduledAt := 10 }

/-- A task scheduled far beyond the `setTimeout` cap. -/
def exFarTask : Task :=
  { exRecTask with id := "f", intervalMs := none, scheduledAt := 4000000000 }

def exStateRec : SchedulerState := ⟨[exRecTask], none, false, 0, 0⟩

def exStateTwo : SchedulerState := ⟨[exRecTask, exOneShot], none, false, 0, 0⟩

def exStateDone : SchedulerState := ⟨[exDoneTask], none, false, 0, 0⟩

def exStateTie : SchedulerState := ⟨[exTieTask1, exTieTask2], none, false, 0, 0⟩

def exStateFar : SchedulerState := ⟨[exFarTask], none, false, 0, 0⟩

def exStateDisposed : SchedulerState := ⟨[exRecTask], some 5, true, 0, 0⟩

def exCreateInput : CreateInput :=
  { scheduledAt := 50, action := "dock", payload := none, requestId := some "req9" }

/-- The six lifecycle event names. -/
def eventNames : List String :=
  ["created", "executing", "executed", "failed", "canceled", "updated"]

/-- The shape every broadcast lifecycle event actually has: a `type` field
equal to `"schedule"`, an `event` field among the six event names, and a
`schedule` field carrying the public projection of a task. -/
def goodMsg (m : Msg) : Prop :=
  m.lookup "type" = some (BVal.str "schedule") ∧
  (∃ ev ∈ eventNames, m.lookup "event" = some (BVal.str ev)) ∧
  (∃ t : Task, m.lookup "schedule" = some (BVal.pub (publicOf t)))

/-- The shape every audit entry actually has, relative to the adapter call
`(s, rid)` it records: the per-attempt execution request id is stored in
the field named `requestId`, there is no `executionRequestId` field, the
command is namespaced with the task's action, the task id is `scheduleId`,
and the status is `ok`, or `error` together with a message. -/
def auditMatches (a : AuditEntry) (s : Task) (rid : String) : Prop :=
  a.lookup "requestId" = some rid ∧
  a.lookup "executionRequestId" = none ∧
  a.lookup "command" = some ("schedule:" ++ s.action) ∧
  a.lookup "scheduleId" = some s.id ∧
  (a.lookup "status" = some "ok" ∨
    (a.lookup "status" = some "error" ∧ ∃ msg, a.lookup "message" = some msg))

/-! ### Helper lemmas on the list primitives -/

theorem findTask_id {id : String} {l : List Task} {u : Task}
    (h : findTask id l = some u) : u.id = id := by
  induction l with
  | nil => simp [findTask] at h
  | cons x l ih =>
    by_cases hx : x.id = id
    · simp only [findTask, if_pos hx, Option.some.injEq] at h
      exact h ▸ hx
    · simp only [findTask, if_neg hx] at h
      exact ih h

theorem findTask_replaceTask_self {id : String} {t' : Task} (ht : t'.id = id)
    {l : List Task} {u : Task} (h : findTask id l = some u) :
    findTask id (replaceTask id t' l) = some t' := by
  induction l with
  | nil => simp [findTask] at h
  | cons x l ih =>
    by_cases hx : x.id = id
    · simp [findTask, replaceTask, if_pos hx, ht]
    · simp only [findTask, if_neg hx] at h
      simp only [replaceTask, List.map_cons, if_neg hx, findTask, if_neg hx]
      exact ih h

theorem findTask_replaceTask_ne {id id' : String} {t' : Task} (ht : t'.id = id')
    (hne : id ≠ id') (l : List Task) :
    findTask id (replaceTask id' t' l) = findTask id l := by
  induction l with
  | nil => rfl
  | cons x l ih =>
    by_cases hx : x.id = id'
    · have hxid : ¬ x.id = id := fun h => hne (h ▸ hx)
      have htid : ¬ t'.id = id := fun h => hne (h ▸ ht)
      simp only [replaceTask, List.map_cons, if_pos hx, findTask, if_neg htid, if_neg hxid]
      exact ih
    · simp only [replaceTask, List.map_cons, if_neg hx, findTask]
      by_cases hxi : x.id = id
      · rw [if_pos hxi, if_pos hxi]
      · rw [if_neg hxi, if_neg hxi]
        exact ih

theorem map_id_replaceTask {id : String} {t' : Task} (ht : t'.id = id)
    (l : List Task) : (replaceTask id t' l).map Task.id = l.map Task.id := by
  induction l with
  | nil => rfl
  | cons x l ih =>
    by_cases hx : x.id = id
    · simp only [replaceTask, List.map_cons, if_pos hx] at ih ⊢
      rw [ih, ht, hx]
    · simp only [replaceTask, List.map_cons, if_neg hx] at ih ⊢
      rw [ih]

theorem findTask_of_nodup_mem {l : List Task} {t : Task}
    (hnd : (l.map Task.id).Nodup) (hm : t ∈ l) :
    findTask t.id l = some t := by
  induction l with
  | nil => simp at hm
  | cons x l ih =>
    rw [List.map_cons, List.nodup_cons] at hnd
    rcases List.mem_cons.mp hm with h | h
    · subst h
      simp [findTask]
    · by_cases hx : x.id = t.id
      · exact absurd (hx ▸ List.mem_map_of_mem Task.id h) hnd.1
      · simp only [findTask, if_neg hx]
        exact ih hnd.2 h

/-! ### Lemmas about a single firing -/

theorem fireTask_id (out : ExecOutcome) (now : Int) (rid : String) (s : Task) :
    (fireTask out now rid s).id = s.id := by
  cases out <;> simp only [fireTask, fireSuccess, fireFailure] <;> split <;> rfl

theorem fireTrace_execCalls (out : ExecOutcome) (rid : String) (s s' : Task) :
    (fireTrace out rid s s').execCalls = [(s, rid)] := by
  cases out <;> rfl

theorem scheduleNext_schedules (clock : Nat → Int) (st : SchedulerState) :
    (scheduleNext clock st).schedules = st.schedules := by
  simp only [scheduleNext]
  split <;> rfl

theorem scheduleNext_disposed (clock : Nat → Int) (st : SchedulerState) :
    (scheduleNext clock st).disposed = st.disposed := by
  simp only [scheduleNext]
  split
  · rfl
  · rfl

theorem executeOne_inert {execute : Task → String → ExecOutcome} {clock : Nat → Int}
    {id : String} {st : SchedulerState} {u : Task}
    (hf : findTask id st.schedules = some u) (hs : u.status ≠ Status.pending) :
    executeOne execute clock id st = (st, Trace.empty) := by
  by_cases hd : st.disposed
  · simp [executeOne, hd]
  · simp [executeOne, hd, hf, hs]

theorem executeOne_fires (execute : Task → String → ExecOutcome) (clock : Nat → Int)
    {id : String} {st : SchedulerState} {s : Task}
    (hd : st.disposed = false) (hf : findTask id st.schedules = some s)
    (hs : s.status = Status.pending) :
    executeOne execute clock id st =
      ({ st with
          schedules := replaceTask id
            (fireTask (execute s (randHex st.ridCtr)) (clock st.tick)
              (randHex st.ridCtr) s) st.schedules
          tick := st.tick + 1
          ridCtr := st.ridCtr + 1 },
       fireTrace (execute s (randHex st.ridCtr)) (randHex st.ridCtr) s
         (fireTask (execute s (randHex st.ridCtr)) (clock st.tick)
           (randHex st.ridCtr) s)) := by
  simp [executeOne, hd, hf, hs, SchedulerState.freshRand, SchedulerState.sampleNow]

theorem fireTask_oneshot_terminal {s : Task} (h : isRecurring s = false)
    (out : ExecOutcome) (now : Int) (rid : String) :
    (fireTask out now rid s).status = Status.executed ∨
      (fireTask out now rid s).status = Status.failed := by
  cases out
  · left
    simp [fireTask, fireSuccess, h]
  · right
    simp [fireTask, fireFailure, h]

theorem isRecurring_eq_false_of_none {s : Task} (h : s.intervalMs = none) :
    isRecurring s = false := by
  simp [isRecurring, h]

theorem fireTask_recurring {s : Task} {iv : Int} (hiv : s.intervalMs = some iv)
    (hpos : 0 < iv) (out : ExecOutcome) (now : Int) (rid : String) :
    (fireTask out now rid s).status = Status.pending ∧
      (fireTask out now rid s).scheduledAt = now + iv ∧
      (fireTask out now rid s).lastRunAt = some now := by
  have hrec : isRecurring s = true := by simp [isRecurring, hiv, hpos]
  cases out <;> simp [fireTask, fireSuccess, fireFailure, hrec, hiv]

/-! ### The catch-up batch -/

theorem runDue_nil (execute : Task → String → ExecOutcome) (clock : Nat → Int)
    (st : SchedulerState) : runDue execute clock [] st = (st, Trace.empty) := rfl

theorem runDue_cons (execute : Task → String → ExecOutcome) (clock : Nat → Int)
    (id : String) (rest : List String) (st : SchedulerState)
    (hd : st.disposed = false) :
    runDue execute clock (id :: rest) st =
      ((runDue execute clock rest (executeOne execute clock id st).1).1,
       (executeOne execute clock id st).2.append
         (runDue execute clock rest (executeOne execute clock id st).1).2) := by
  simp [runDue, hd]

theorem runDue_disposed (execute : Task → String → ExecOutcome) (clock : Nat → Int)
    (l : List String) (st : SchedulerState) (hd : st.disposed = true) :
    runDue execute clock l st = (st, Trace.empty) := by
  cases l with
  | nil => rfl
  | cons id rest => simp [runDue, hd]

/-- Main batch lemma: running the loop of `_onTimer` over a list of distinct
pending tasks present in the state fires each of them exactly once, in list
order, and leaves every other task untouched. -/
theorem runDue_batch (execute : Task → String → ExecOutcome) (clock : Nat → Int) :
    ∀ (ds : List Task) (st : SchedulerState),
      st.disposed = false →
      (ds.map Task.id).Nodup →
      (∀ d ∈ ds, findTask d.id st.schedules = some d) →
      (∀ d ∈ ds, d.status = Status.pending) →
      (runDue execute clock (ds.map Task.id) st).2.execCalls.map Prod.fst = ds ∧
      (runDue execute clock (ds.map Task.id) st).1.disposed = false ∧
      (∀ id, id ∉ ds.map Task.id →
        findTask id (runDue execute clock (ds.map Task.id) st).1.schedules =
          findTask id st.schedules) ∧
      (∀ d ∈ ds, ∃ rid now,
        findTask d.id (runDue execute clock (ds.map Task.id) st).1.schedules =
          some (fireTask (execute d rid) now rid d)) := by
  intro ds
  induction ds with
  | nil =>
    intro st hd _ _ _
    exact ⟨rfl, hd, fun _ _ => rfl, by simp⟩
  | cons d rest ih =>
    intro st hd hnd hfind hpend
    rw [List.map_cons, List.nodup_cons] at hnd
    have hfd := hfind d (List.mem_cons_self d rest)
    have hpd := hpend d (List.mem_cons_self d rest)
    have heq := executeOne_fires execute clock hd hfd hpd
    have hsid : (fireTask (execute d (randHex st.ridCtr)) (clock st.tick)
        (randHex st.ridCtr) d).id = d.id := fireTask_id _ _ _ _
    have hfind1 : ∀ e ∈ rest,
        findTask e.id (executeOne execute clock d.id st).1.schedules = some e := by
      intro e he
      rw [heq]
      have hne : e.id ≠ d.id := by
        intro hcontra
        exact hnd.1 (hcontra ▸ List.mem_map_of_mem Task.id he)
      rw [show ({ st with
            schedules := replaceTask d.id
              (fireTask (execute d (randHex st.ridCtr)) (clock st.tick)
                (randHex st.ridCtr) d) st.schedules
            tick := st.tick + 1
            ridCtr := st.ridCtr + 1 } : SchedulerState).schedules =
          replaceTask d.id
            (fireTask (execute d (randHex st.ridCtr)) (clock st.tick)
              (randHex st.ridCtr) d) st.schedules from rfl]
      rw [findTask_replaceTask_ne hsid hne]
      exact hfind e (List.mem_cons_of_mem d he)
    have hd1 : (executeOne execute clock d.id st).1.disposed = false := by
      rw [heq]
      exact hd
    obtain ⟨ihcalls, ihdisp, ihpres, ihfired⟩ :=
      ih (executeOne execute clock d.id st).1 hd1 hnd.2 hfind1
        (fun e he => hpend e (List.mem_cons_of_mem d he))
    rw [List.map_cons, runDue_cons execute clock d.id (rest.map Task.id) st hd]
    refine ⟨?_, ihdisp, ?_, ?_⟩
    · show ((executeOne execute clock d.id st).2.execCalls ++
          (runDue execute clock (rest.map Task.id)
            (executeOne execute clock d.id st).1).2.execCalls).map Prod.fst = d :: rest
      rw [List.map_append, ihcalls, heq, fireTrace_execCalls]
      rfl
    · intro id hid
      rw [List.mem_cons, not_or] at hid
      show findTask id (runDue execute clock (rest.map Task.id)
          (executeOne execute clock d.id st).1).1.schedules = findTask id st.schedules
      rw [ihpres id hid.2, heq]
      exact findTask_replaceTask_ne hsid hid.1 st.schedules
    · intro e he
      rcases List.mem_cons.mp he with h | h
      · refine ⟨randHex st.ridCtr, clock st.tick, ?_⟩
        rw [h]
        show findTask d.id (runDue execute clock (rest.map Task.id)
            (executeOne execute clock d.id st).1).1.schedules = _
        rw [ihpres d.id hnd.1, heq]
        exact findTask_replaceTask_self hsid hfd
      · exact ihfired e h

/-! ### Properties of the due list and of one full timer wake-up -/

theorem dueList_perm (now : Int) (l : List Task) :
    List.Perm (dueList now l) (l.filter
      (fun s => decide (s.status = Status.pending) && decide (s.scheduledAt ≤ now))) :=
  List.perm_insertionSort timeLE _

theorem mem_dueList {now : Int} {l : List Task} {t : Task} :
    t ∈ dueList now l ↔ t ∈ l ∧ t.status = Status.pending ∧ t.scheduledAt ≤ now := by
  rw [(dueList_perm now l).mem_iff, List.mem_filter]
  simp [and_assoc]

theorem dueList_sorted (now : Int) (l : List Task) :
    (dueList now l).Pairwise timeLE :=
  List.sorted_insertionSort timeLE _

theorem dueList_nodup_ids {now : Int} {l : List Task}
    (hnd : (l.map Task.id).Nodup) : ((dueList now l).map Task.id).Nodup := by
  have hsub : List.Sublist ((l.filter
      (fun s => decide (s.status = Status.pending) && decide (s.scheduledAt ≤ now))).map
        Task.id) (l.map Task.id) :=
    (List.filter_sublist l).map Task.id
  exact ((dueList_perm now l).map Task.id).nodup_iff.mpr (hnd.sublist hsub)

theorem onTimer_eq {execute : Task → String → ExecOutcome} {clock : Nat → Int}
    {st : SchedulerState} (hd : st.disposed = false) :
    onTimer execute clock st =
      (scheduleNext clock
        (runDue execute clock
          ((dueList (clock st.tick) st.schedules).map Task.id)
          { st with tick := st.tick + 1 }).1,
       (runDue execute clock
          ((dueList (clock st.tick) st.schedules).map Task.id)
          { st with tick := st.tick + 1 }).2) := by
  simp [onTimer, hd, SchedulerState.sampleNow]

/-- One full `_onTimer` wake-up, on a state with distinct task ids: the
adapter is called exactly on the due tasks, in due-list order; every due
task ends up replaced by its fired version; every other task is untouched. -/
theorem onTimer_batch (execute : Task → String → ExecOutcome) (clock : Nat → Int)
    (st : SchedulerState) (hd : st.disposed = false)
    (hnd : (st.schedules.map Task.id).Nodup) :
    (onTimer execute clock st).2.execCalls.map Prod.fst =
      dueList (clock st.tick) st.schedules ∧
    (∀ d ∈ dueList (clock st.tick) st.schedules, ∃ rid now,
      findTask d.id (onTimer execute clock st).1.schedules =
        some (fireTask (execute d rid) now rid d)) ∧
    (∀ id, id ∉ (dueList (clock st.tick) st.schedules).map Task.id →
      findTask id (onTimer execute clock st).1.schedules =
        findTask id st.schedules) := by
  have hfind : ∀ d ∈ dueList (clock st.tick) st.schedules,
      findTask d.id ({ st with tick := st.tick + 1 } : SchedulerState).schedules =
        some d := by
    intro d hdm
    exact findTask_of_nodup_mem hnd (mem_dueList.mp hdm).1
  have hpend : ∀ d ∈ dueList (clock st.tick) st.schedules,
      d.status = Status.pending :=
    fun d hdm => (mem_dueList.mp hdm).2.1
  obtain ⟨hcalls, _, hpres, hfired⟩ :=
    runDue_batch execute clock (dueList (clock st.tick) st.schedules)
      { st with tick := st.tick + 1 } hd (dueList_nodup_ids hnd) hfind hpend
  rw [onTimer_eq hd]
  refine ⟨hcalls, ?_, ?_⟩
  · intro d hdm
    obtain ⟨rid, now, hf⟩ := hfired d hdm
    exact ⟨rid, now, by rw [scheduleNext_schedules]; exact hf⟩
  · intro id hid
    rw [scheduleNext_schedules]
    exact hpres id hid

/-! ### Equation lemmas for the mutating operations -/

theorem cancel_none (clock : Nat → Int) {id : String} {st : SchedulerState}
    (hf : findTask id st.schedules = none) :
    cancel clock id st = (st, Trace.empty, none) := by
  simp [cancel, hf]

theorem cancel_not_pending (clock : Nat → Int) {id : String} {st : SchedulerState}
    {s : Task} (hf : findTask id st.schedules = some s)
    (hs : s.status ≠ Status.pending) :
    cancel clock id st = (st, Trace.empty, some s) := by
  simp [cancel, hf, hs]

theorem cancel_pending (clock : Nat → Int) {id : String} {st : SchedulerState}
    {s : Task} (hf : findTask id st.schedules = some s)
    (hs : s.status = Status.pending) :
    cancel clock id st =
      (scheduleNext clock { st with
          schedules := replaceTask id
            { s with status := Status.canceled, updatedAt := clock st.tick }
            st.schedules
          tick := st.tick + 1 },
       ⟨[wsMsg "canceled"
          { s with status := Status.canceled, updatedAt := clock st.tick }], [], []⟩,
       some { s with status := Status.canceled, updatedAt := clock st.tick }) := by
  simp [cancel, hf, hs, SchedulerState.sampleNow]

theorem update_none (clock : Nat → Int) {id : String} {ch : UpdatePatch}
    {st : SchedulerState} (hf : findTask id st.schedules = none) :
    update clock id ch st = (st, Trace.empty, none) := by
  simp [update, hf]

theorem update_not_pending (clock : Nat → Int) {id : String} {ch : UpdatePatch}
    {st : SchedulerState} {s : Task} (hf : findTask id st.schedules = some s)
    (hs : s.status ≠ Status.pending) :
    update clock id ch st = (st, Trace.empty, some s) := by
  simp [update, hf, hs]

theorem update_untouched (clock : Nat → Int) {id : String} {ch : UpdatePatch}
    {st : SchedulerState} {s : Task} (hf : findTask id st.schedules = some s)
    (hs : s.status = Status.pending) (htf : (applyPatch ch s).2 = false) :
    update clock id ch st = (st, Trace.empty, some s) := by
  simp [update, hf, hs, htf]

theorem update_touched (clock : Nat → Int) {id : String} {ch : UpdatePatch}
    {st : SchedulerState} {s : Task} (hf : findTask id st.schedules = some s)
    (hs : s.status = Status.pending) (htt : (applyPatch ch s).2 = true) :
    update clock id ch st =
      (scheduleNext clock { st with
          schedules := replaceTask id
            { (applyPatch ch s).1 with updatedAt := clock st.tick } st.schedules
          tick := st.tick + 1 },
       ⟨[wsMsg "updated" { (applyPatch ch s).1 with updatedAt := clock st.tick }],
        [], []⟩,
       some { (applyPatch ch s).1 with updatedAt := clock st.tick }) := by
  simp [update, hf, hs, htt, SchedulerState.sampleNow]

theorem findTask_append_fresh {id0 : String} {sch : Task} (hid : sch.id = id0) :
    ∀ {l : List Task}, (∀ u ∈ l, u.id ≠ id0) →
      findTask id0 (l ++ [sch]) = some sch := by
  intro l
  induction l with
  | nil => intro _; simp [findTask, hid]
  | cons x l ih =>
    intro hfr
    have hx : x.id ≠ id0 := hfr x (List.mem_cons_self x l)
    simp only [List.cons_append, findTask, if_neg hx]
    exact ih (fun u hu => hfr u (List.mem_cons_of_mem x hu))

/-! ### Claim C1 -/

/-- C1: a pending recurring task (positive finite `intervalMs`), when fired
by `_executeOne` — whether the injected `execute` resolves or rejects —
stays `pending`, has `scheduledAt` set to the firing time plus
`intervalMs`, and `lastRunAt` set to the firing time, so that
`scheduledAt` is strictly greater than `lastRunAt`. -/
theorem recurring_fire_stays_pending
    (execute : Task → String → ExecOutcome) (clock : Nat → Int)
    (st : SchedulerState) (t : Task) (iv : Int)
    (hd : st.disposed = false)
    (hf : findTask t.id st.schedules = some t)
    (hp : t.status = Status.pending)
    (hiv : t.intervalMs = some iv) (hpos : 0 < iv) :
    ∃ t', findTask t.id (executeOne execute clock t.id st).1.schedules = some t' ∧
      t'.status = Status.pending ∧
      t'.scheduledAt = clock st.tick + iv ∧
      t'.lastRunAt = some (clock st.tick) ∧
      clock st.tick < t'.scheduledAt := by
  have heq := executeOne_fires execute clock hd hf hp
  have hsid : (fireTask (execute t (randHex st.ridCtr)) (clock st.tick)
      (randHex st.ridCtr) t).id = t.id := fireTask_id _ _ _ _
  obtain ⟨hst, hsch, hlr⟩ :=
    fireTask_recurring hiv hpos (execute t (randHex st.ridCtr))
      (clock st.tick) (randHex st.ridCtr)
  refine ⟨fireTask (execute t (randHex st.ridCtr)) (clock st.tick)
      (randHex st.ridCtr) t, ?_, hst, hsch, hlr, ?_⟩
  · rw [heq]
    exact findTask_replaceTask_self hsid hf
  · rw [hsch]
    omega

/-- Witness for C1 at a concrete recurring task, successful firing. -/
theorem recurring_fire_stays_pending_witness :
    (exStateRec.disposed = false ∧
     findTask exRecTask.id exStateRec.schedules = some exRecTask ∧
     exRecTask.status = Status.pending ∧
     exRecTask.intervalMs = some 60000 ∧ (0 : Int) < 60000) ∧
    (∃ t', findTask exRecTask.id
        (executeOne exExecOk exClock exRecTask.id exStateRec).1.schedules = some t' ∧
      t'.status = Status.pending ∧
      t'.scheduledAt = exClock exStateRec.tick + 60000 ∧
      t'.lastRunAt = some (exClock exStateRec.tick) ∧
      exClock exStateRec.tick < t'.scheduledAt) :=
  ⟨⟨rfl, by decide, rfl, rfl, by decide⟩,
   recurring_fire_stays_pending exExecOk exClock exStateRec exRecTask 60000
     rfl (by decide) rfl rfl (by decide)⟩

/-! ### Claim C7 -/

/-- C7: on a task whose status is `executed`, `failed` or `canceled`, both
`update` (any patch) and `cancel` return the task itself with the state
unchanged and emit nothing; in particular a second `cancel` of a canceled
task is a no-op returning the already-canceled task. -/
theorem terminal_mutation_noop (clock : Nat → Int) (st : SchedulerState)
    (id : String) (t : Task) (ch : UpdatePatch)
    (hf : findTask id st.schedules = some t)
    (ht : t.status = Status.executed ∨ t.status = Status.failed ∨
      t.status = Status.canceled) :
    update clock id ch st = (st, Trace.empty, some t) ∧
    cancel clock id st = (st, Trace.empty, some t) ∧
    (∀ (st2 : SchedulerState) (u : Task),
      findTask id st2.schedules = some u → u.status = Status.pending →
      cancel clock id (cancel clock id st2).1 =
        ((cancel clock id st2).1, Trace.empty, (cancel clock id st2).2.2)) := by
  have hnp : t.status ≠ Status.pending := by
    rcases ht with h | h | h <;> rw [h] <;> exact fun hcon => by cases hcon
  refine ⟨update_not_pending clock hf hnp, cancel_not_pending clock hf hnp, ?_⟩
  intro st2 u hfu hpu
  have heq := cancel_pending clock hfu hpu
  have huid : u.id = id := findTask_id hfu
  have hu2id :
      ({ u with status := Status.canceled, updatedAt := clock st2.tick } : Task).id =
        id := huid
  have hfu' : findTask id (cancel clock id st2).1.schedules =
      some { u with status := Status.canceled, updatedAt := clock st2.tick } := by
    rw [heq, scheduleNext_schedules]
    exact findTask_replaceTask_self hu2id hfu
  have hres : (cancel clock id st2).2.2 =
      some { u with status := Status.canceled, updatedAt := clock st2.tick } := by
    rw [heq]
  rw [hres]
  exact cancel_not_pending clock hfu' (fun hcon => by cases hcon)

/-- Witness for C7 at a concrete executed task and a concrete patch. -/
theorem terminal_mutation_noop_witness :
    (findTask "c" exStateDone.schedules = some exDoneTask ∧
     (exDoneTask.status = Status.executed ∨ exDoneTask.status = Status.failed ∨
      exDoneTask.status = Status.canceled)) ∧
    (update exClock "c" { action := some "stop" } exStateDone =
        (exStateDone, Trace.empty, some exDoneTask) ∧
     cancel exClock "c" exStateDone = (exStateDone, Trace.empty, some exDoneTask) ∧
     (∀ (st2 : SchedulerState) (u : Task),
       findTask "c" st2.schedules = some u → u.status = Status.pending →
       cancel exClock "c" (cancel exClock "c" st2).1 =
         ((cancel exClock "c" st2).1, Trace.empty, (cancel exClock "c" st2).2.2))) :=
  ⟨⟨by decide, Or.inl rfl⟩,
   terminal_mutation_noop exClock exStateDone "c" exDoneTask
     { action := some "stop" } (by decide) (Or.inl rfl)⟩

/-! ### Claim C9 -/

/-- C9: `dispose` is idempotent, clears the armed timer and sets the flag;
once the flag is set, `_scheduleNext` arms nothing, the catch-up loop
processes no further task from any point, `_executeOne` never invokes the
adapter, and `_onTimer` does nothing. -/
theorem dispose_suppresses_everything
    (execute : Task → String → ExecOutcome) (clock : Nat → Int) :
    (∀ st, dispose (dispose st) = dispose st) ∧
    (∀ st, (dispose st).disposed = true ∧ (dispose st).timer = none) ∧
    (∀ st, st.disposed = true → scheduleNext clock st = st) ∧
    (∀ st l, st.disposed = true → runDue execute clock l st = (st, Trace.empty)) ∧
    (∀ st id, st.disposed = true → executeOne execute clock id st = (st, Trace.empty)) ∧
    (∀ st, st.disposed = true → onTimer execute clock st = (st, Trace.empty)) := by
  refine ⟨fun st => rfl, fun st => ⟨rfl, rfl⟩, ?_, ?_, ?_, ?_⟩
  · intro st h
    simp [scheduleNext, h]
  · intro st l h
    exact runDue_disposed execute clock l st h
  · intro st id h
    simp [executeOne, h]
  · intro st h
    simp [onTimer, h]

/-- Witness for C9 at a concrete disposed state. -/
theorem dispose_suppresses_everything_witness :
    (dispose (dispose exStateRec) = dispose exStateRec) ∧
    ((dispose exStateRec).disposed = true ∧ (dispose exStateRec).timer = none) ∧
    (exStateDisposed.disposed = true ∧
     scheduleNext exClock exStateDisposed = exStateDisposed ∧
     runDue exExecOk exClock ["a"] exStateDisposed = (exStateDisposed, Trace.empty) ∧
     executeOne exExecOk exClock "a" exStateDisposed = (exStateDisposed, Trace.empty) ∧
     onTimer exExecOk exClock exStateDisposed = (exStateDisposed, Trace.empty)) :=
  ⟨(dispose_suppresses_everything exExecOk exClock).1 exStateRec,
   (dispose_suppresses_everything exExecOk exClock).2.1 exStateRec,
   rfl,
   (dispose_suppresses_everything exExecOk exClock).2.2.1 exStateDisposed rfl,
   (dispose_suppresses_everything exExecOk exClock).2.2.2.1 exStateDisposed ["a"] rfl,
   (dispose_suppresses_everything exExecOk exClock).2.2.2.2.1 exStateDisposed "a" rfl,
   (dispose_suppresses_everything exExecOk exClock).2.2.2.2.2 exStateDisposed rfl⟩

/-! ### Patching lemmas, claim C10 and claim C3 -/

theorem patchScheduledAt_id (v : Option JSNum) (p : Task × Bool) :
    (patchScheduledAt v p).1.id = p.1.id := by
  rcases v with _ | n
  · rfl
  · rcases n with x | _ | _ | _ <;> rfl

theorem patchAction_id (v : Option String) (p : Task × Bool) :
    (patchAction v p).1.id = p.1.id := by
  rcases v with _ | a
  · rfl
  · by_cases h : a = "" <;> simp [patchAction, h]

theorem patchPayload_id (v : Option (Option String)) (p : Task × Bool) :
    (patchPayload v p).1.id = p.1.id := by
  rcases v with _ | q <;> rfl

theorem patchInterval_id (v : Option JSNum) (p : Task × Bool) :
    (patchInterval v p).1.id = p.1.id := by
  rcases v with _ | n <;> rfl

theorem applyPatch_id (ch : UpdatePatch) (s : Task) :
    (applyPatch ch s).1.id = s.id := by
  unfold applyPatch
  rw [patchInterval_id, patchPayload_id, patchAction_id, patchScheduledAt_id]

theorem applyPatch_interval {ch : UpdatePatch} {n : JSNum}
    (hch : ch.intervalMs = some n) (s : Task) :
    (applyPatch ch s).1.intervalMs = jsIntervalVal n ∧ (applyPatch ch s).2 = true := by
  unfold applyPatch
  rw [hch]
  exact ⟨rfl, rfl⟩

theorem create_schedules (clock : Nat → Int) (inp : CreateInput)
    (st : SchedulerState) :
    (create clock inp st).1.schedules =
      st.schedules ++ [(create clock inp st).2.2] := by
  have h := scheduleNext_schedules clock { st with
    schedules := st.schedules ++ [(create clock inp st).2.2]
    tick := st.tick + 1
    ridCtr := st.ridCtr + 1 }
  exact h

/-- C10: `create` always returns a one-shot task — `intervalMs` is `null`
no matter what the caller supplies (the input carries no interval field at
all, mirroring the destructuring in the code), `payload` defaults to
`null`, `lastRunAt` is `null`, `status` is `pending`, `createdAt` equals
`updatedAt`; recurrence can then be introduced through `update` with a
positive `intervalMs`. -/
theorem create_is_one_shot (clock : Nat → Int) (inp : CreateInput)
    (st : SchedulerState)
    (hfresh : ∀ u ∈ st.schedules, u.id ≠ randHex st.ridCtr) :
    (create clock inp st).2.2.intervalMs = none ∧
    (create clock inp st).2.2.lastRunAt = none ∧
    (create clock inp st).2.2.status = Status.pending ∧
    (create clock inp st).2.2.createdAt = (create clock inp st).2.2.updatedAt ∧
    (inp.payload = none → (create clock inp st).2.2.payload = none) ∧
    (∀ iv : Int, 0 < iv →
      ∃ t', (update clock (create clock inp st).2.2.id
          { intervalMs := some (JSNum.fin iv) } (create clock inp st).1).2.2 =
            some t' ∧
        t'.intervalMs = some iv) := by
  refine ⟨rfl, rfl, rfl, rfl, ?_, ?_⟩
  · intro hp
    show orNullStr inp.payload = none
    rw [hp]
    rfl
  · intro iv hiv
    have hf : findTask (create clock inp st).2.2.id
        (create clock inp st).1.schedules = some ((create clock inp st).2.2) := by
      rw [create_schedules]
      exact findTask_append_fresh rfl hfresh
    obtain ⟨hint, htt⟩ := applyPatch_interval
      (show ({ intervalMs := some (JSNum.fin iv) } : UpdatePatch).intervalMs =
        some (JSNum.fin iv) from rfl) ((create clock inp st).2.2)
    have heq := update_touched clock hf rfl htt
    rw [heq]
    refine ⟨_, rfl, ?_⟩
    show (applyPatch { intervalMs := some (JSNum.fin iv) }
      ((create clock inp st).2.2)).1.intervalMs = some iv
    rw [hint]
    simp [jsIntervalVal, hiv]

/-- Witness for C10 at a concrete input and state. -/
theorem create_is_one_shot_witness :
    (∀ u ∈ exStateRec.schedules, u.id ≠ randHex exStateRec.ridCtr) ∧
    ((create exClock exCreateInput exStateRec).2.2.intervalMs = none ∧
     (create exClock exCreateInput exStateRec).2.2.lastRunAt = none ∧
     (create exClock exCreateInput exStateRec).2.2.status = Status.pending ∧
     (create exClock exCreateInput exStateRec).2.2.createdAt =
       (create exClock exCreateInput exStateRec).2.2.updatedAt ∧
     (exCreateInput.payload = none →
       (create exClock exCreateInput exStateRec).2.2.payload = none) ∧
     (∀ iv : Int, 0 < iv →
       ∃ t', (update exClock (create exClock exCreateInput exStateRec).2.2.id
           { intervalMs := some (JSNum.fin iv) }
           (create exClock exCreateInput exStateRec).1).2.2 = some t' ∧
         t'.intervalMs = some iv)) :=
  ⟨by decide,
   create_is_one_shot exClock exCreateInput exStateRec (by decide)⟩

/-- C3 counterexample: on the concrete pending task with
`intervalMs = 60000`, an `update` whose `intervalMs` is the invalid value
`-1` does not leave the field unchanged — the returned task's `intervalMs`
is `null`. -/
theorem invalid_interval_not_ignored :
    exRecTask.intervalMs = some 60000 ∧
    ((update exClock "a" { intervalMs := some (JSNum.fin (-1)) }
        exStateRec).2.2.map Task.intervalMs) = some none := by
  decide

/-- C3 (amended): for a pending task, an `update` patch whose `intervalMs`
is present but non-positive or non-finite is not rejected and does not
leave `intervalMs` unchanged: the field is set to `null` (recurrence is
cleared), the task counts as touched, and an `updated` event is emitted. -/
theorem update_invalid_interval_clears (clock : Nat → Int) (id : String)
    (st : SchedulerState) (t : Task) (ch : UpdatePatch) (n : JSNum)
    (hf : findTask id st.schedules = some t) (hp : t.status = Status.pending)
    (hch : ch.intervalMs = some n)
    (hbad : ∀ v, n = JSNum.fin v → v ≤ 0) :
    ∃ t', (update clock id ch st).2.2 = some t' ∧ t'.intervalMs = none ∧
      (update clock id ch st).2.1.msgs = [wsMsg "updated" t'] ∧
      findTask id (update clock id ch st).1.schedules = some t' := by
  have hnull : jsIntervalVal n = none := by
    rcases n with v | _ | _ | _
    · have hv := hbad v rfl
      simp [jsIntervalVal]
      omega
    · rfl
    · rfl
    · rfl
  obtain ⟨hint, htt⟩ := applyPatch_interval hch t
  have heq := update_touched clock hf hp htt
  have htid : ({ (applyPatch ch t).1 with updatedAt := clock st.tick } : Task).id =
      id := by
    show (applyPatch ch t).1.id = id
    rw [applyPatch_id]
    exact findTask_id hf
  refine ⟨{ (applyPatch ch t).1 with updatedAt := clock st.tick }, ?_, ?_, ?_, ?_⟩
  · rw [heq]
  · show (applyPatch ch t).1.intervalMs = none
    rw [hint, hnull]
  · rw [heq]
  · rw [heq, scheduleNext_schedules]
    exact findTask_replaceTask_self htid hf

/-- Witness for C3 (amended) at the concrete recurring task and the
invalid patch value `-1`. -/
theorem update_invalid_interval_clears_witness :
    (findTask "a" exStateRec.schedules = some exRecTask ∧
     exRecTask.status = Status.pending ∧
     ({ intervalMs := some (JSNum.fin (-1)) } : UpdatePatch).intervalMs =
       some (JSNum.fin (-1)) ∧
     (∀ v, JSNum.fin (-1) = JSNum.fin v → v ≤ 0)) ∧
    (∃ t', (update exClock "a" { intervalMs := some (JSNum.fin (-1)) }
        exStateRec).2.2 = some t' ∧ t'.intervalMs = none ∧
      (update exClock "a" { intervalMs := some (JSNum.fin (-1)) }
        exStateRec).2.1.msgs = [wsMsg "updated" t'] ∧
      findTask "a" (update exClock "a" { intervalMs := some (JSNum.fin (-1)) }
        exStateRec).1.schedules = some t') :=
  ⟨⟨by decide, rfl, rfl, fun v h => by
      cases h
      decide⟩,
   update_invalid_interval_clears exClock "a" exStateRec exRecTask
     { intervalMs := some (JSNum.fin (-1)) } (JSNum.fin (-1))
     (by decide) rfl rfl (fun v h => by
      cases h
      decide)⟩

/-! ### Event shape machinery, claim C4 -/

theorem goodMsg_wsMsg {ev : String} (hev : ev ∈ eventNames) (t : Task) :
    goodMsg (wsMsg ev t) :=
  ⟨rfl, ⟨ev, hev, rfl⟩, ⟨t, rfl⟩⟩

theorem fireTrace_msgs_good (out : ExecOutcome) (rid : String) (s s' : Task) :
    ∀ m ∈ (fireTrace out rid s s').msgs, goodMsg m := by
  intro m hm
  cases out <;>
    simp only [fireTrace, List.mem_cons, List.not_mem_nil, or_false] at hm <;>
    rcases hm with hm | hm <;>
    rw [hm] <;>
    exact goodMsg_wsMsg (by decide) _

theorem executeOne_msgs_good (execute : Task → String → ExecOutcome)
    (clock : Nat → Int) (id : String) (st : SchedulerState) :
    ∀ m ∈ (executeOne execute clock id st).2.msgs, goodMsg m := by
  intro m hm
  by_cases hd : st.disposed
  · simp [executeOne, hd, Trace.empty] at hm
  · have hd' : st.disposed = false := by simpa using hd
    rcases hfind : findTask id st.schedules with _ | s
    · simp [executeOne, hd', hfind, Trace.empty] at hm
    · by_cases hs : s.status = Status.pending
      · rw [executeOne_fires execute clock hd' hfind hs] at hm
        exact fireTrace_msgs_good _ _ _ _ m hm
      · rw [executeOne_inert hfind hs] at hm
        simp [Trace.empty] at hm

theorem runDue_msgs_good (execute : Task → String → ExecOutcome)
    (clock : Nat → Int) :
    ∀ (l : List String) (st : SchedulerState),
      ∀ m ∈ (runDue execute clock l st).2.msgs, goodMsg m := by
  intro l
  induction l with
  | nil =>
    intro st m hm
    simp [runDue, Trace.empty] at hm
  | cons id rest ih =>
    intro st m hm
    by_cases hd : st.disposed
    · rw [runDue_disposed execute clock _ st hd] at hm
      simp [Trace.empty] at hm
    · have hd' : st.disposed = false := by simpa using hd
      rw [runDue_cons execute clock id rest st hd'] at hm
      rcases List.mem_append.mp hm with h | h
      · exact executeOne_msgs_good execute clock id st m h
      · exact ih _ m h

theorem onTimer_msgs_good (execute : Task → String → ExecOutcome)
    (clock : Nat → Int) (st : SchedulerState) :
    ∀ m ∈ (onTimer execute clock st).2.msgs, goodMsg m := by
  intro m hm
  by_cases hd : st.disposed
  · simp [onTimer, hd, Trace.empty] at hm
  · have hd' : st.disposed = false := by simpa using hd
    rw [onTimer_eq hd'] at hm
    exact runDue_msgs_good execute clock _ _ m hm

/-- C4 counterexample: the event emitted by a concrete `create` has no
field named `kind` and no field named `task`; the discriminator lives in a
field named `type` and the task in a field named `schedule`. -/
theorem event_has_no_kind_or_task_field :
    ∃ m ∈ (create exClock exCreateInput exStateRec).2.1.msgs,
      m.lookup "kind" = none ∧ m.lookup "task" = none ∧
      m.lookup "type" = some (BVal.str "schedule") ∧
      m.lookup "schedule" =
        some (BVal.pub (publicOf ((create exClock exCreateInput exStateRec).2.2))) := by
  decide

/-- C4 (amended): every lifecycle event published to the injected
broadcast function by any operation is an object whose field named `type`
equals `"schedule"`, whose `event` field is one of
created/executing/executed/failed/canceled/updated, and whose `schedule`
field carries the public task projection. -/
theorem broadcast_event_shape (execute : Task → String → ExecOutcome)
    (clock : Nat → Int) :
    (∀ inp st, ∀ m ∈ (create clock inp st).2.1.msgs, goodMsg m) ∧
    (∀ id st, ∀ m ∈ (cancel clock id st).2.1.msgs, goodMsg m) ∧
    (∀ id ch st, ∀ m ∈ (update clock id ch st).2.1.msgs, goodMsg m) ∧
    (∀ id st, ∀ m ∈ (executeOne execute clock id st).2.msgs, goodMsg m) ∧
    (∀ st, ∀ m ∈ (onTimer execute clock st).2.msgs, goodMsg m) := by
  refine ⟨?_, ?_, ?_, ?_, ?_⟩
  · intro inp st m hm
    have h : (create clock inp st).2.1.msgs =
        [wsMsg "created" ((create clock inp st).2.2)] := rfl
    rw [h, List.mem_singleton] at hm
    exact hm ▸ goodMsg_wsMsg (by decide) _
  · intro id st m hm
    rcases hfind : findTask id st.schedules with _ | s
    · rw [cancel_none clock hfind] at hm
      simp [Trace.empty] at hm
    · by_cases hs : s.status = Status.pending
      · rw [cancel_pending clock hfind hs] at hm
        rw [List.mem_singleton] at hm
        exact hm ▸ goodMsg_wsMsg (by decide) _
      · rw [cancel_not_pending clock hfind hs] at hm
        simp [Trace.empty] at hm
  · intro id ch st m hm
    rcases hfind : findTask id st.schedules with _ | s
    · rw [update_none clock hfind] at hm
      simp [Trace.empty] at hm
    · by_cases hs : s.status = Status.pending
      · rcases htc : (applyPatch ch s).2 with _ | _
        · rw [update_untouched clock hfind hs htc] at hm
          simp [Trace.empty] at hm
        · rw [update_touched clock hfind hs htc] at hm
          rw [List.mem_singleton] at hm
          exact hm ▸ goodMsg_wsMsg (by decide) _
      · rw [update_not_pending clock hfind hs] at hm
        simp [Trace.empty] at hm
  · intro id st m hm
    exact executeOne_msgs_good execute clock id st m hm
  · intro st m hm
    exact onTimer_msgs_good execute clock st m hm

/-- Witness for C4 (amended) at the event of a concrete `create`. -/
theorem broadcast_event_shape_witness :
    (wsMsg "created" ((create exClock exCreateInput exStateRec).2.2) ∈
      (create exClock exCreateInput exStateRec).2.1.msgs) ∧
    goodMsg (wsMsg "created" ((create exClock exCreateInput exStateRec).2.2)) :=
  ⟨List.mem_singleton.mpr rfl,
   (broadcast_event_shape exExecOk exClock).1 exCreateInput exStateRec _
     (List.mem_singleton.mpr rfl)⟩

/-! ### Audit shape machinery, claim C5 -/

theorem auditMatches_auditOk (rid : String) (s : Task) :
    auditMatches (auditOk rid s) s rid :=
  ⟨rfl, rfl, rfl, rfl, Or.inl rfl⟩

theorem auditMatches_auditErr (rid m : String) (s : Task) :
    auditMatches (auditErr rid m s) s rid :=
  ⟨rfl, rfl, rfl, rfl, Or.inr ⟨rfl, ⟨m, rfl⟩⟩⟩

theorem fireTrace_audits_good (out : ExecOutcome) (rid : String) (s s' : Task) :
    ∀ a ∈ (fireTrace out rid s s').audits,
      ∃ u r, (u, r) ∈ (fireTrace out rid s s').execCalls ∧ auditMatches a u r := by
  intro a ha
  cases out <;>
    simp only [fireTrace, List.mem_cons, List.not_mem_nil, or_false,
      List.mem_singleton] at ha <;>
    rw [ha]
  · exact ⟨s, rid, List.mem_singleton.mpr rfl, auditMatches_auditOk rid s⟩
  · exact ⟨s, rid, List.mem_singleton.mpr rfl, auditMatches_auditErr rid _ s⟩

theorem executeOne_audits_good (execute : Task → String → ExecOutcome)
    (clock : Nat → Int) (id : String) (st : SchedulerState) :
    ∀ a ∈ (executeOne execute clock id st).2.audits,
      ∃ u r, (u, r) ∈ (executeOne execute clock id st).2.execCalls ∧
        auditMatches a u r := by
  intro a ha
  by_cases hd : st.disposed
  · simp [executeOne, hd, Trace.empty] at ha
  · have hd' : st.disposed = false := by simpa using hd
    rcases hfind : findTask id st.schedules with _ | s
    · simp [executeOne, hd', hfind, Trace.empty] at ha
    · by_cases hs : s.status = Status.pending
      · rw [executeOne_fires execute clock hd' hfind hs] at ha ⊢
        exact fireTrace_audits_good _ _ _ _ a ha
      · rw [executeOne_inert hfind hs] at ha
        simp [Trace.empty] at ha

theorem runDue_audits_good (execute : Task → String → ExecOutcome)
    (clock : Nat → Int) :
    ∀ (l : List String) (st : SchedulerState),
      ∀ a ∈ (runDue execute clock l st).2.audits,
        ∃ u r, (u, r) ∈ (runDue execute clock l st).2.execCalls ∧
          auditMatches a u r := by
  intro l
  induction l with
  | nil =>
    intro st a ha
    simp [runDue, Trace.empty] at ha
  | cons id rest ih =>
    intro st a ha
    by_cases hd : st.disposed
    · rw [runDue_disposed execute clock _ st hd] at ha
      simp [Trace.empty] at ha
    · have hd' : st.disposed = false := by simpa using hd
      rw [runDue_cons execute clock id rest st hd'] at ha ⊢
      rcases List.mem_append.mp ha with h | h
      · obtain ⟨u, r, hc, hmat⟩ := executeOne_audits_good execute clock id st a h
        exact ⟨u, r, List.mem_append.mpr (Or.inl hc), hmat⟩
      · obtain ⟨u, r, hc, hmat⟩ := ih _ a h
        exact ⟨u, r, List.mem_append.mpr (Or.inr hc), hmat⟩

/-- C5 counterexample: the audit entry recorded for a concrete successful
firing has no field named `executionRequestId`; the fresh per-attempt id
(`"r0"`) is stored under the field named `requestId`, which therefore does
not carry the task's caller-supplied requestId (`"req1"`). -/
theorem audit_requestId_is_exec_id :
    exRecTask.requestId = some "req1" ∧
    ∃ a ∈ (executeOne exExecOk exClock "a" exStateRec).2.audits,
      a.lookup "executionRequestId" = none ∧
      a.lookup "requestId" = some "r0" ∧
      a.lookup "requestId" ≠ some "req1" := by
  decide

/-- C5 (amended): every audit entry recorded for a firing attempt carries
the fresh per-attempt execution request id in the field named `requestId`
(there is no `executionRequestId` field, and the caller-supplied requestId
is not recorded), together with command `schedule:<action>`, status `ok`
or `error` (with a message in the error case), and the owning task id as
`scheduleId`. -/
theorem audit_entries_record_exec_id (execute : Task → String → ExecOutcome)
    (clock : Nat → Int) :
    (∀ id st, ∀ a ∈ (executeOne execute clock id st).2.audits,
      ∃ u r, (u, r) ∈ (executeOne execute clock id st).2.execCalls ∧
        auditMatches a u r) ∧
    (∀ st, ∀ a ∈ (onTimer execute clock st).2.audits,
      ∃ u r, (u, r) ∈ (onTimer execute clock st).2.execCalls ∧
        auditMatches a u r) := by
  refine ⟨fun id st => executeOne_audits_good execute clock id st, ?_⟩
  intro st a ha
  by_cases hd : st.disposed
  · simp [onTimer, hd, Trace.empty] at ha
  · have hd' : st.disposed = false := by simpa using hd
    rw [onTimer_eq hd'] at ha ⊢
    exact runDue_audits_good execute clock _ _ a ha

/-- Witness for C5 (amended) at a concrete successful firing. -/
theorem audit_entries_record_exec_id_witness :
    (auditOk "r0" exRecTask ∈
      (executeOne exExecOk exClock "a" exStateRec).2.audits) ∧
    (∃ u r, (u, r) ∈ (executeOne exExecOk exClock "a" exStateRec).2.execCalls ∧
      auditMatches (auditOk "r0" exRecTask) u r) :=
  ⟨by decide,
   (audit_entries_record_exec_id exExecOk exClock).1 "a" exStateRec
     (auditOk "r0" exRecTask) (by decide)⟩

/-! ### Counting helper and claim C2 -/

theorem countP_eq_one_of_nodup_mem {l : List String} {a : String}
    (hnd : l.Nodup) (hm : a ∈ l) :
    l.countP (fun x => decide (x = a)) = 1 := by
  have h := List.count_eq_one_of_mem hnd hm
  rw [← h]
  exact List.countP_congr (fun x _ => by by_cases hx : x = a <;> simp [hx])

/-- C2: a pending one-shot task whose `scheduledAt` has passed is, in one
catch-up cycle, passed to the injected adapter exactly once and ends in a
terminal `executed`/`failed` status; and any task that is no longer
`pending` when its turn comes is skipped by `_executeOne` with the state
unchanged and the adapter not invoked. -/
theorem oneshot_fires_exactly_once (execute : Task → String → ExecOutcome)
    (clock : Nat → Int) (st : SchedulerState) (t : Task)
    (hd : st.disposed = false)
    (hnd : (st.schedules.map Task.id).Nodup)
    (hmem : t ∈ st.schedules)
    (hp : t.status = Status.pending)
    (hone : t.intervalMs = none)
    (hdue : t.scheduledAt ≤ clock st.tick) :
    ((onTimer execute clock st).2.execCalls.filter
        (fun c => decide (c.1.id = t.id))).length = 1 ∧
    (∃ t', findTask t.id (onTimer execute clock st).1.schedules = some t' ∧
      (t'.status = Status.executed ∨ t'.status = Status.failed)) ∧
    (∀ (st2 : SchedulerState) (u : Task) (id : String),
      findTask id st2.schedules = some u → u.status ≠ Status.pending →
      executeOne execute clock id st2 = (st2, Trace.empty)) := by
  obtain ⟨hcalls, hfired, _⟩ := onTimer_batch execute clock st hd hnd
  have htdue : t ∈ dueList (clock st.tick) st.schedules :=
    mem_dueList.mpr ⟨hmem, hp, hdue⟩
  refine ⟨?_, ?_, fun st2 u id hf hs => executeOne_inert hf hs⟩
  · rw [← List.countP_eq_length_filter]
    have h1 : ((onTimer execute clock st).2.execCalls.map Prod.fst).countP
        (fun x => decide (x.id = t.id)) =
        (onTimer execute clock st).2.execCalls.countP
          (fun c => decide (c.1.id = t.id)) :=
      List.countP_map _ _ _
    rw [← h1, hcalls]
    have h2 : ((dueList (clock st.tick) st.schedules).map Task.id).countP
        (fun i => decide (i = t.id)) =
        (dueList (clock st.tick) st.schedules).countP
          (fun x => decide (x.id = t.id)) :=
      List.countP_map _ _ _
    rw [← h2]
    exact countP_eq_one_of_nodup_mem (dueList_nodup_ids hnd)
      (List.mem_map_of_mem Task.id htdue)
  · obtain ⟨rid, now, hf⟩ := hfired t htdue
    exact ⟨fireTask (execute t rid) now rid t, hf,
      fireTask_oneshot_terminal (isRecurring_eq_false_of_none hone) _ _ _⟩

/-- Witness for C2: the due one-shot task `"b"` in a concrete two-task
state, successful adapter. -/
theorem oneshot_fires_exactly_once_witness :
    (exStateTwo.disposed = false ∧
     (exStateTwo.schedules.map Task.id).Nodup ∧
     exOneShot ∈ exStateTwo.schedules ∧
     exOneShot.status = Status.pending ∧
     exOneShot.intervalMs = none ∧
     exOneShot.scheduledAt ≤ exClock exStateTwo.tick) ∧
    (((onTimer exExecOk exClock exStateTwo).2.execCalls.filter
        (fun c => decide (c.1.id = exOneShot.id))).length = 1 ∧
     (∃ t', findTask exOneShot.id
         (onTimer exExecOk exClock exStateTwo).1.schedules = some t' ∧
       (t'.status = Status.executed ∨ t'.status = Status.failed)) ∧
     (∀ (st2 : SchedulerState) (u : Task) (id : String),
       findTask id st2.schedules = some u → u.status ≠ Status.pending →
       executeOne exExecOk exClock id st2 = (st2, Trace.empty))) :=
  ⟨⟨rfl, by decide, by decide, rfl, rfl, by decide⟩,
   oneshot_fires_exactly_once exExecOk exClock exStateTwo exOneShot
     rfl (by decide) (by decide) rfl rfl (by decide)⟩

/-! ### Disposed-flag stability, timer formula, claims C6 and C8 -/

theorem executeOne_disposed_stable (execute : Task → String → ExecOutcome)
    (clock : Nat → Int) (id : String) (st : SchedulerState) :
    (executeOne execute clock id st).1.disposed = st.disposed := by
  by_cases hd : st.disposed
  · simp [executeOne, hd]
  · have hd' : st.disposed = false := by simpa using hd
    rcases hfind : findTask id st.schedules with _ | s
    · simp [executeOne, hd', hfind]
    · by_cases hs : s.status = Status.pending
      · rw [executeOne_fires execute clock hd' hfind hs]
      · rw [executeOne_inert hfind hs]

theorem runDue_disposed_stable (execute : Task → String → ExecOutcome)
    (clock : Nat → Int) :
    ∀ (l : List String) (st : SchedulerState),
      (runDue execute clock l st).1.disposed = st.disposed := by
  intro l
  induction l with
  | nil => intro st; rfl
  | cons id rest ih =>
    intro st
    by_cases hd : st.disposed
    · rw [runDue_disposed execute clock _ st hd]
    · have hd' : st.disposed = false := by simpa using hd
      rw [runDue_cons execute clock id rest st hd']
      show (runDue execute clock rest (executeOne execute clock id st).1).1.disposed =
        st.disposed
      rw [ih, executeOne_disposed_stable]

theorem scheduleNext_timer {clock : Nat → Int} {st : SchedulerState}
    (hd : st.disposed = false) :
    (scheduleNext clock st).timer = nextDelay (clock st.tick) st.schedules := by
  simp [scheduleNext, hd, SchedulerState.sampleNow]

theorem nextDelay_min {now : Int} {l : List Task} {e : Task}
    (he : e ∈ l) (hep : e.status = Status.pending)
    (hmin : ∀ u ∈ l, u.status = Status.pending → e.scheduledAt ≤ u.scheduledAt) :
    nextDelay now l = some (min (max 0 (e.scheduledAt - now)) 2147483647) := by
  have hef : e ∈ l.filter (fun s => decide (s.status = Status.pending)) :=
    List.mem_filter.mpr ⟨he, by simp [hep]⟩
  have hes : e ∈ sortByTime (l.filter (fun s => decide (s.status = Status.pending))) := by
    rw [sortByTime, List.mem_insertionSort]
    exact hef
  have hsorted : (sortByTime (l.filter
      (fun s => decide (s.status = Status.pending)))).Pairwise timeLE :=
    List.sorted_insertionSort timeLE _
  rcases hsort : sortByTime (l.filter (fun s => decide (s.status = Status.pending)))
    with _ | ⟨h0, rest⟩
  · rw [hsort] at hes
    cases hes
  · rw [hsort] at hes hsorted
    have h0mem : h0 ∈ l.filter (fun s => decide (s.status = Status.pending)) := by
      rw [← List.mem_insertionSort (r := timeLE)]
      show h0 ∈ sortByTime (l.filter (fun s => decide (s.status = Status.pending)))
      rw [hsort]
      exact List.mem_cons_self h0 rest
    have h0l : h0 ∈ l := (List.mem_filter.mp h0mem).1
    have h0p : h0.status = Status.pending := by
      have := (List.mem_filter.mp h0mem).2
      simpa using this
    have hle1 : e.scheduledAt ≤ h0.scheduledAt := hmin h0 h0l h0p
    have hle2 : h0.scheduledAt ≤ e.scheduledAt := by
      rcases List.mem_cons.mp hes with h | h
      · rw [h]
      · exact (List.pairwise_cons.mp hsorted).1 e h
    have heq : h0.scheduledAt = e.scheduledAt := le_antisymm hle2 hle1
    unfold nextDelay
    rw [hsort]
    simp only [List.head?]
    rw [heq]

/-- C6 counterexample: with two due pending tasks sharing
`scheduledAt = 10`, the adapter-call sequence of one wake-up has
`scheduledAt` values `[10, 10]`, which is not strictly ascending. -/
theorem tie_breaks_strict_order :
    ((onTimer exExecOk exClock exStateTie).2.execCalls.map
        (fun c => c.1.scheduledAt)) = [10, 10] ∧
    ¬ ((onTimer exExecOk exClock exStateTie).2.execCalls.map
        (fun c => c.1.scheduledAt)).Pairwise (fun a b => a < b) := by
  decide

/-- C6 (amended): one wake-up calls the adapter exactly on the due list —
every pending task with `scheduledAt <= now`, sequentially in
non-decreasing `scheduledAt` order (strictly ascending whenever the due
`scheduledAt` values are distinct) — and afterwards the timer is
recomputed from the earliest pending task of the resulting state. -/
theorem catchup_batch_order (execute : Task → String → ExecOutcome)
    (clock : Nat → Int) (st : SchedulerState)
    (hd : st.disposed = false) (hnd : (st.schedules.map Task.id).Nodup) :
    (onTimer execute clock st).2.execCalls.map Prod.fst =
      dueList (clock st.tick) st.schedules ∧
    (∀ s ∈ st.schedules, s.status = Status.pending →
      s.scheduledAt ≤ clock st.tick →
      s ∈ (onTimer execute clock st).2.execCalls.map Prod.fst) ∧
    ((onTimer execute clock st).2.execCalls.map Prod.fst).Pairwise timeLE ∧
    (((onTimer execute clock st).2.execCalls.map
        (fun c => c.1.scheduledAt)).Nodup →
      ((onTimer execute clock st).2.execCalls.map
        (fun c => c.1.scheduledAt)).Pairwise (fun a b => a < b)) ∧
    (∃ now2, (onTimer execute clock st).1.timer =
      nextDelay now2 (onTimer execute clock st).1.schedules) := by
  obtain ⟨hcalls, _, _⟩ := onTimer_batch execute clock st hd hnd
  have hmapsched : (onTimer execute clock st).2.execCalls.map
      (fun c => c.1.scheduledAt) =
      ((onTimer execute clock st).2.execCalls.map Prod.fst).map
        Task.scheduledAt := by
    rw [List.map_map]
    rfl
  refine ⟨hcalls, ?_, ?_, ?_, ?_⟩
  · intro s hs hp hdue
    rw [hcalls]
    exact mem_dueList.mpr ⟨hs, hp, hdue⟩
  · rw [hcalls]
    exact dueList_sorted _ _
  · intro hnds
    rw [hmapsched, hcalls] at hnds ⊢
    have hle : ((dueList (clock st.tick) st.schedules).map
        Task.scheduledAt).Pairwise (fun a b => a ≤ b) :=
      List.pairwise_map.mpr (dueList_sorted (clock st.tick) st.schedules)
    have hne : ((dueList (clock st.tick) st.schedules).map
        Task.scheduledAt).Pairwise (fun a b => a ≠ b) := hnds
    exact (hne.and hle).imp (fun hab => lt_of_le_of_ne hab.2 hab.1)
  · have hd1 : (runDue execute clock
        ((dueList (clock st.tick) st.schedules).map Task.id)
        { st with tick := st.tick + 1 }).1.disposed = false := by
      rw [runDue_disposed_stable]
      exact hd
    rw [onTimer_eq hd]
    exact ⟨clock (runDue execute clock
        ((dueList (clock st.tick) st.schedules).map Task.id)
        { st with tick := st.tick + 1 }).1.tick,
      by rw [scheduleNext_timer hd1, scheduleNext_schedules]⟩

/-- Witness for C6 (amended) at a concrete two-task state. -/
theorem catchup_batch_order_witness :
    (exStateTwo.disposed = false ∧ (exStateTwo.schedules.map Task.id).Nodup) ∧
    ((onTimer exExecOk exClock exStateTwo).2.execCalls.map Prod.fst =
      dueList (exClock exStateTwo.tick) exStateTwo.schedules ∧
     (∀ s ∈ exStateTwo.schedules, s.status = Status.pending →
       s.scheduledAt ≤ exClock exStateTwo.tick →
       s ∈ (onTimer exExecOk exClock exStateTwo).2.execCalls.map Prod.fst) ∧
     ((onTimer exExecOk exClock exStateTwo).2.execCalls.map
        Prod.fst).Pairwise timeLE ∧
     (((onTimer exExecOk exClock exStateTwo).2.execCalls.map
         (fun c => c.1.scheduledAt)).Nodup →
       ((onTimer exExecOk exClock exStateTwo).2.execCalls.map
         (fun c => c.1.scheduledAt)).Pairwise (fun a b => a < b)) ∧
     (∃ now2, (onTimer exExecOk exClock exStateTwo).1.timer =
       nextDelay now2 (onTimer exExecOk exClock exStateTwo).1.schedules)) :=
  ⟨⟨rfl, by decide⟩,
   catchup_batch_order exExecOk exClock exStateTwo rfl (by decide)⟩

/-- C8: the armed delay is `max(0, earliest.scheduledAt - now)` clamped to
`2^31 - 1`, and one wake-up only ever hands tasks with
`scheduledAt <= now` to the adapter — a task beyond the cap is therefore
re-armed rather than fired early. -/
theorem adapter_never_early (execute : Task → String → ExecOutcome)
    (clock : Nat → Int) :
    (∀ (st : SchedulerState) (e : Task), st.disposed = false →
      e ∈ st.schedules → e.status = Status.pending →
      (∀ u ∈ st.schedules, u.status = Status.pending →
        e.scheduledAt ≤ u.scheduledAt) →
      (scheduleNext clock st).timer =
        some (min (max 0 (e.scheduledAt - clock st.tick)) 2147483647)) ∧
    (∀ st : SchedulerState, (st.schedules.map Task.id).Nodup →
      ∀ c ∈ (onTimer execute clock st).2.execCalls,
        c.1.scheduledAt ≤ clock st.tick) := by
  constructor
  · intro st e hd he hp hmin
    rw [scheduleNext_timer hd]
    exact nextDelay_min he hp hmin
  · intro st hnd c hc
    by_cases hd : st.disposed
    · simp [onTimer, hd, Trace.empty] at hc
    · have hd' : st.disposed = false := by simpa using hd
      obtain ⟨hcalls, _, _⟩ := onTimer_batch execute clock st hd' hnd
      have hmem : c.1 ∈ (onTimer execute clock st).2.execCalls.map Prod.fst :=
        List.mem_map_of_mem Prod.fst hc
      rw [hcalls] at hmem
      exact (mem_dueList.mp hmem).2.2

/-- Witness for C8: the capped delay for a task ~46 days out, and the
due-only guarantee on a concrete wake-up. -/
theorem adapter_never_early_witness :
    (exStateFar.disposed = false ∧ exFarTask ∈ exStateFar.schedules ∧
     exFarTask.status = Status.pending ∧
     (∀ u ∈ exStateFar.schedules, u.status = Status.pending →
       exFarTask.scheduledAt ≤ u.scheduledAt)) ∧
    (scheduleNext exClock exStateFar).timer =
      some (min (max 0 (exFarTask.scheduledAt - exClock exStateFar.tick))
        2147483647) ∧
    ((exStateTwo.schedules.map Task.id).Nodup ∧
     ∀ c ∈ (onTimer exExecOk exClock exStateTwo).2.execCalls,
       c.1.scheduledAt ≤ exClock exStateTwo.tick) :=
  ⟨⟨rfl, by decide, rfl, by decide⟩,
   (adapter_never_early exExecOk exClock).1 exStateFar exFarTask rfl
     (by decide) rfl (by decide),
   by decide,
   fun c hc => (adapter_never_early exExecOk exClock).2 exStateTwo
     (by decide) c hc⟩

end Vac
